import Mathlib

/-!
# Envelope encryption with a hardware token: the envelope and padding pipeline

A shallow embedding of `yk_encrypt.cpp`, `yk_decrypt.cpp` and `yk_common.hpp`.
Byte buffers (`std::vector<std::byte>`, `std::span<const std::byte>`) are lists of
bytes; machine integers are naturals (or integers) with the reduction of their width
written out where a conversion or a wrap can happen; a read past the end of a buffer
and a loop that does not finish are results of their own (`Fault`), so that their
absence is a theorem and not an assumption.  An exception that nothing catches (the
buffer of `readFile`) ends a run without an exit status.  OpenSSL, libykpiv and the
file system are collaborators passed as parameters.
-/

namespace Yk

/-! ## Bytes and spans -/

/-- A `std::byte`: an unsigned value of 8 bits. -/
abbrev Byte := Fin 256

/-- A `std::vector<std::byte>` or a `std::span<const std::byte>`. -/
abbrev Bytes := List Byte

/-- The call `std::to_integer<unsigned>(b)`. -/
def toInteger (b : Byte) : Nat := b.val

/-- The conversion `std::byte(n)`: the low 8 bits of `n`. -/
def toByte (n : Nat) : Byte := Fin.ofNat n

/-- Conversion to `std::uint16_t`: reduction modulo `2^16`. -/
def toUInt16 (n : Nat) : Nat := n % 65536

/-- Conversion to `unsigned` (32 bits): reduction modulo `2^32`. -/
def toUnsigned (n : Nat) : Nat := n % 4294967296

/-- The value an `int` (32 bits, two's complement) holds after an arithmetic result `x`:
`x` itself inside the range, the wrapped value outside of it. -/
def wrapInt (x : Int) : Int := (x + 2147483648) % 4294967296 - 2147483648

/-- Conversion of an `int` to `std::size_t` (64 bits): reduction modulo `2^64`. -/
def toSizeT (x : Int) : Nat := (x % 18446744073709551616).toNat

/-- Subtraction `a - b` of two `std::size_t` values (both below `2^64`): the difference
when `b <= a`, and the value wrapped around `2^64` when the difference is negative. -/
def subSizeT (a b : Nat) : Nat := if b ≤ a then a - b else a + 18446744073709551616 - b

/-- Results the C++ standard leaves undefined or that never come: a read outside a
buffer, and a loop that has not finished within the steps it was given. -/
inductive Fault where
  | outOfBounds
  | outOfFuel
  deriving DecidableEq, Repr

/-- The result of a step of the pipeline: a value, a diagnosed error (the tool prints a
message and returns 1), or a fault. -/
inductive Res (ε α : Type) where
  | ok (value : α)
  | error (e : ε)
  | fault (f : Fault)
  deriving DecidableEq, Repr

/-- The call `s.subspan(offset, count)`; its precondition is `offset <= s.size()` and
`count <= s.size() - offset`, anything else is a read outside the buffer. -/
def subspan (s : Bytes) (offset count : Nat) : Option Bytes :=
  if offset ≤ s.length ∧ count ≤ s.length - offset then
    some ((s.drop offset).take count)
  else
    none

/-- The call `s.subspan(offset)`: everything from `offset` to the end; its precondition
is `offset <= s.size()`. -/
def subspanFrom (s : Bytes) (offset : Nat) : Option Bytes :=
  if offset ≤ s.length then some (s.drop offset) else none

/-! ## The envelope: `yk_decrypt.cpp` lines 56-65 and 79-81, `yk_encrypt.cpp` lines 129-137 -/

/-- The two diagnoses of a malformed envelope: "Encrypted file is too short." (line 57)
and "Encrypted file does not contain expected data." (line 63). -/
inductive FormatError where
  | tooShort
  | truncated
  deriving DecidableEq, Repr

/-- Line 61 of `yk_decrypt.cpp`, on the two header bytes:
`(std::uint16_t(to_integer<unsigned>(b0)) << 8) | to_integer<unsigned>(b1)` converted to
`std::uint16_t`.  The shift is done on the promoted `int`, the or on `unsigned`. -/
def headerLength (b0 b1 : Byte) : Nat :=
  toUInt16 (toUnsigned (toUInt16 (toInteger b0) <<< 8) ||| toInteger b1)

/-- The expression `2 + encKeyLen + 16` of lines 62 and 81: two additions on `int`, the
sum converted to `std::size_t` for the comparison with `fileData.size()` and for
`subspan`. -/
def requiredSize (encKeyLen : Nat) : Nat :=
  toSizeT (wrapInt (wrapInt (2 + (encKeyLen : Int)) + 16))

/-- Lines 56-65 of `yk_decrypt.cpp`: the two length checks; the result is `encKeyLen`. -/
def checkEnvelope (fileData : Bytes) : Res FormatError Nat :=
  if fileData.length < 18 then
    .error .tooShort
  else
    match fileData[0]?, fileData[1]? with
    | some b0, some b1 =>
      let encKeyLen := headerLength b0 b1
      if fileData.length < requiredSize encKeyLen then
        .error .truncated
      else
        .ok encKeyLen
    | _, _ => .fault .outOfBounds

/-- The three parts of an envelope, named as in `yk_decrypt.cpp` lines 79-81. -/
structure Envelope where
  rsaEncAES : Bytes
  aesIV : Bytes
  aesCipher : Bytes
  deriving DecidableEq, Repr

/-- The offset `2 + encKeyLen` of line 80: an addition on `int`, converted to
`std::size_t` for `subspan`. -/
def ivOffset (encKeyLen : Nat) : Nat := toSizeT (wrapInt (2 + (encKeyLen : Int)))

/-- Lines 79-81 of `yk_decrypt.cpp`: the three `subspan` calls, at the offsets `2`,
`2 + encKeyLen` and `2 + encKeyLen + 16`. -/
def sliceEnvelope (fileData : Bytes) (encKeyLen : Nat) : Option Envelope :=
  match subspan fileData 2 encKeyLen, subspan fileData (ivOffset encKeyLen) 16,
      subspanFrom fileData (requiredSize encKeyLen) with
  | some rsaEncAES, some aesIV, some aesCipher => some ⟨rsaEncAES, aesIV, aesCipher⟩
  | _, _, _ => none

/-- Envelope parsing: the length checks of lines 56-65 followed by the slicing of lines
79-81 (the token is initialised in between, which uses nothing of the file data). -/
def parseEnvelope (fileData : Bytes) : Res FormatError Envelope :=
  match checkEnvelope fileData with
  | .ok encKeyLen =>
    match sliceEnvelope fileData encKeyLen with
    | some env => .ok env
    | none => .fault .outOfBounds
  | .error e => .error e
  | .fault f => .fault f

/-- Lines 129-137 of `yk_encrypt.cpp`: the two header bytes `(encLen >> 8) & 0xFF` and
`encLen & 0xFF`, then the wrapped key, the iv and the ciphertext.  `encLen` is the size
of `encAesKey` (line 122 resizes the vector to it). -/
def serialize (encAesKey aesIV ciphertext : Bytes) : Bytes :=
  let encLen := encAesKey.length
  [toByte ((encLen >>> 8) &&& 0xFF), toByte (encLen &&& 0xFF)]
    ++ encAesKey ++ aesIV ++ ciphertext

/-- The first two bytes of a buffer read as a big-endian unsigned 16-bit integer,
`256 * b[0] + b[1]`; `none` when the buffer has fewer than two bytes. -/
def bigEndian16 (b : Bytes) : Option Nat :=
  match b with
  | b0 :: b1 :: _ => some (256 * b0.val + b1.val)
  | _ => none

/-! ## Padding removal: `yk_decrypt.cpp` lines 95-114 -/

/-- The three diagnoses of padding removal: "Invalid PKCS#1 padding header." (line 96),
"Padding separator not found." (line 104) and "Unexpected AES key length after padding
removal: N" (line 109), which carries the length it prints. -/
inductive PaddingError where
  | badHeader
  | missingSeparator
  | unexpectedKeyLength (actualKeyLen : Nat)
  deriving DecidableEq, Repr

/-- Line 95, the condition `aesData.size() < 2 || aesData[0] != std::byte{0} ||
aesData[1] != std::byte{2}` with its short-circuit evaluation: the indices of `aesData`
it reads, in order, and its value (`none` for a read outside the buffer). -/
def headerCondition (aesData : Bytes) : List Nat × Option Bool :=
  if aesData.length < 2 then
    ([], some true)
  else
    match aesData[0]? with
    | none => ([0], none)
    | some b0 =>
      if b0 ≠ 0 then
        ([0], some true)
      else
        match aesData[1]? with
        | none => ([0, 1], none)
        | some b1 => ([0, 1], some (decide (b1 ≠ 2)))

/-- Lines 100-102, the loop
`while (sepIndex < aesData.size() && aesData[sepIndex] != std::byte{0}) ++sepIndex;`
started at `sepIndex`: the indices of `aesData` it reads, in order, and the value of
`sepIndex` when it exits.  Every evaluation of the loop condition takes one unit of
`fuel`; the element is read only when `sepIndex < aesData.size()` holds. -/
def scanSeparator (aesData : Bytes) : Nat → Nat → List Nat × Res Empty Nat
  | 0, _ => ([], .fault .outOfFuel)
  | fuel + 1, sepIndex =>
    if sepIndex < aesData.length then
      match aesData[sepIndex]? with
      | none => ([sepIndex], .fault .outOfBounds)
      | some b =>
        if b ≠ 0 then
          let rest := scanSeparator aesData fuel (sepIndex + 1)
          (sepIndex :: rest.1, rest.2)
        else
          ([sepIndex], .ok sepIndex)
    else
      ([], .ok sepIndex)

/-- A run of padding removal: the indices of the deciphered block it has read, in
order, and its result. -/
structure StripRun where
  reads : List Nat
  result : Res PaddingError Bytes
  deriving DecidableEq, Repr

/-- Lines 95-114 of `yk_decrypt.cpp` with `fuel` evaluations of the loop condition at
hand: header check, separator scan from index 2, the check that a separator was found,
the length check on what follows it, the `subspan` of the key.  The subtraction of line
107 is the one of `std::size_t`. -/
def stripPaddingFuel (fuel : Nat) (aesData : Bytes) : StripRun :=
  match headerCondition aesData with
  | (reads, none) => ⟨reads, .fault .outOfBounds⟩
  | (reads, some true) => ⟨reads, .error .badHeader⟩
  | (reads, some false) =>
    match scanSeparator aesData fuel 2 with
    | (scanned, .fault f) => ⟨reads ++ scanned, .fault f⟩
    | (scanned, .ok sepIndex) =>
      if sepIndex ≥ aesData.length then
        ⟨reads ++ scanned, .error .missingSeparator⟩
      else
        let actualKeyLen := subSizeT aesData.length (sepIndex + 1)
        if actualKeyLen ≠ 32 then
          ⟨reads ++ scanned, .error (.unexpectedKeyLength actualKeyLen)⟩
        else
          match subspan aesData (sepIndex + 1) actualKeyLen with
          | none => ⟨reads ++ scanned, .fault .outOfBounds⟩
          | some aesKey => ⟨reads ++ scanned, .ok aesKey⟩

/-- Padding removal, lines 95-114 of `yk_decrypt.cpp`.  The loop condition is evaluated
at most once for every index from 2 to the size of the block, so the size of the block
is fuel enough (`stripPaddingFuel_enough`). -/
def stripPadding (aesData : Bytes) : StripRun :=
  stripPaddingFuel aesData.length aesData

/-- The deciphered block `0x00 || 0x02 || PS || 0x00 || M` of PKCS#1 v1.5 encryption. -/
def paddedBlock (PS M : Bytes) : Bytes := 0 :: 2 :: (PS ++ 0 :: M)

/-- The index `s` is the first index from 2 on at which the block has a zero byte. -/
def FirstZeroFrom2 (block : Bytes) (s : Nat) : Prop :=
  2 ≤ s ∧ block[s]? = some 0 ∧ ∀ j, j < s → 2 ≤ j → block[j]? ≠ some 0

instance (block : Bytes) (s : Nat) : Decidable (FirstZeroFrom2 block s) := by
  unfold FirstZeroFrom2
  infer_instance

/-! ## The file system and the collaborators -/

/-- The file system as the tools see it: the content of every path that can be read,
the paths a `std::ofstream` can open for writing, and the paths that open for reading
and report a size (`tellg`, not negative) for which no buffer can be constructed: a
directory on Linux, a file larger than the memory at hand. -/
structure Disk where
  files : String → Option Bytes
  writable : String → Bool
  tooLarge : String → Bool

/-- The disk after `data` has been written to the file at `path`: the path holds
`data`, which the process had in memory, and is a file of that size. -/
def Disk.store (disk : Disk) (path : String) (data : Bytes) : Disk :=
  ⟨fun p => if p = path then some data else disk.files p, disk.writable,
    fun p => if p = path then false else disk.tooLarge p⟩

/-- An operation on a file opened for writing: the construction of a `std::ofstream`
on a path (which creates or truncates the file when it succeeds), and a `write` of
bytes to it. -/
inductive FileOp where
  | openOutput (path : String)
  | write (path : String) (data : Bytes)
  deriving DecidableEq, Repr

/-- How a call of `readFile` ends: it returns, `std::nullopt` or the buffer, or the
construction of the buffer throws and the process is terminated. -/
inductive ReadOutcome where
  | returned (result : Option Bytes)
  | terminated
  deriving DecidableEq, Repr

/-- The function `readFile` of `yk_common.hpp` (lines 10-28).  It returns
`std::nullopt` when the file cannot be opened (line 12), reports a negative size (line
17) or cannot be read (line 24), and the whole content otherwise.  Line 22 constructs
a buffer of the size `tellg` has reported; for a path that is `tooLarge` the
constructor throws (`std::length_error` or `std::bad_alloc`), and since neither
`readFile` nor a `main` has a handler the process ends in `std::terminate`. -/
def readFile (disk : Disk) (filename : String) : ReadOutcome :=
  if disk.tooLarge filename then .terminated else .returned (disk.files filename)

/-- The function `writeFile` of `yk_common.hpp` (lines 30-37): it opens the file for
writing and returns `false` when that fails; otherwise it writes `data` and returns
`f.good()`.  A write on a stream that has been opened stores all the bytes.  The
result is the value returned, the disk after the call, and the operations done. -/
def writeFile (disk : Disk) (path : String) (data : Bytes) : Bool × Disk × List FileOp :=
  if disk.writable path then
    (true, disk.store path data, [.openOutput path, .write path data])
  else
    (false, disk, [.openOutput path])

/-- The calls into libykpiv.  `ykpiv_init` and `ykpiv_connect` tell whether the call
returned `YKPIV_OK`.  `ykpiv_decipher_data`, given the wrapped key (with the algorithm
`YKPIV_ALGO_RSA2048` and the key slot `YKPIV_KEY_AUTHENTICATION` of line 85), is `none`
for a return code other than `YKPIV_OK` and otherwise the buffer `aesData` after line
93 has resized it to the length the token reported. -/
structure Token where
  ykpiv_init : Bool
  ykpiv_connect : Bool
  ykpiv_decipher_data : Bytes → Option Bytes

/-- The calls into OpenSSL; `κ` is the type of a loaded public key (`EVP_PKEY*`).
`randKey` and `randIV` are the two `RAND_bytes` calls of line 34 of `yk_encrypt.cpp`
(`none` for a result other than 1); `encryptAES plaintext key iv` is the AES-256-CBC
encryption of lines 40-66; `readPubkey` is `PEM_read_PUBKEY` on the content of the key
file that `fopen` has opened (lines 69-80); `pkeyEncrypt` is the `EVP_PKEY_encrypt`
sequence of lines 83-122 with PKCS#1 padding, giving `encAesKey`;
`decryptAES ciphertext key iv` is the function of that name in `yk_decrypt.cpp` (lines
16-42).  Each is `none` when a call of its sequence fails. -/
structure OpenSSL (κ : Type) where
  randKey : Option Bytes
  randIV : Option Bytes
  encryptAES : Bytes → Bytes → Bytes → Option Bytes
  readPubkey : Bytes → Option κ
  pkeyEncrypt : κ → Bytes → Option Bytes
  decryptAES : Bytes → Bytes → Bytes → Option Bytes

/-- What a run of a tool leaves: the exit status `main` returns (`none` when `main`
does not return: after a fault, or when the process is terminated), the diagnostic
printed when the run failed, the disk, the operations done on output files, and
whether the process was terminated by an exception nothing catches. -/
structure Outcome (δ : Type) where
  exit : Option Nat
  diagnostic : Option δ
  disk : Disk
  ops : List FileOp
  terminated : Bool

/-- A run that ends with `return 1` after printing a diagnostic, the disk untouched. -/
def Outcome.fail {δ : Type} (disk : Disk) (d : δ) : Outcome δ :=
  ⟨some 1, some d, disk, [], false⟩

/-- A run that ends in a fault, the disk untouched. -/
def Outcome.faulted {δ : Type} (disk : Disk) : Outcome δ := ⟨none, none, disk, [], false⟩

/-- A run in which `readFile` throws: `main` returns no exit status and prints no
diagnostic of its own; the process is terminated with the disk untouched. -/
def Outcome.abort {δ : Type} (disk : Disk) : Outcome δ := ⟨none, none, disk, [], true⟩

namespace Decrypt

/-- The diagnostics of `yk_decrypt.cpp`, one for each `return 1`: the usage line (line
46), the input that cannot be read (52), the two format errors (57, 63), the failures
of `ykpiv_init` (70), `ykpiv_connect` (74) and `ykpiv_decipher_data` (86), the three
padding errors (96, 104, 109), the failure of `decryptAES` (117) and the output that
cannot be opened (123). -/
inductive Diagnostic where
  | usage
  | unreadableInput
  | format (e : FormatError)
  | tokenInit
  | tokenConnect
  | tokenDecipher
  | padding (e : PaddingError)
  | aesDecrypt
  | cannotOpenOutput
  deriving DecidableEq, Repr

/-- The function `main` of `yk_decrypt.cpp` (lines 44-130), `argv` holding `argc`
strings.  The call of `readFile` on line 50 is not inside a `try`: when it throws, the
process is terminated there.  The output stream is constructed on line 121, after
`decryptAES` has returned the plaintext; a write on a stream that has been opened
stores all the bytes. -/
def main {κ : Type} (ssl : OpenSSL κ) (token : Token) (disk : Disk) (argv : List String) :
    Outcome Diagnostic :=
  if argv.length ≠ 3 then
    .fail disk .usage
  else
    match argv[1]?, argv[2]? with
    | some encryptedInput, some decryptedOutput =>
      match readFile disk encryptedInput with
      | .terminated => .abort disk
      | .returned none => .fail disk .unreadableInput
      | .returned (some fileData) =>
        match checkEnvelope fileData with
        | .error e => .fail disk (.format e)
        | .fault _ => .faulted disk
        | .ok encKeyLen =>
          if ¬ token.ykpiv_init then
            .fail disk .tokenInit
          else if ¬ token.ykpiv_connect then
            .fail disk .tokenConnect
          else
            match sliceEnvelope fileData encKeyLen with
            | none => .faulted disk
            | some env =>
              match token.ykpiv_decipher_data env.rsaEncAES with
              | none => .fail disk .tokenDecipher
              | some aesData =>
                match (stripPadding aesData).result with
                | .error e => .fail disk (.padding e)
                | .fault _ => .faulted disk
                | .ok aesKey =>
                  match ssl.decryptAES env.aesCipher aesKey env.aesIV with
                  | none => .fail disk .aesDecrypt
                  | some plain =>
                    if disk.writable decryptedOutput then
                      ⟨some 0, none, disk.store decryptedOutput plain,
                        [.openOutput decryptedOutput, .write decryptedOutput plain], false⟩
                    else
                      ⟨some 1, some .cannotOpenOutput, disk, [.openOutput decryptedOutput],
                        false⟩
    | _, _ => .faulted disk

/-- The stages of the decrypt driver that come before `WriteOutput`, as the
specification chains them: `ReadInput`, `ParseEnvelope`, `UnwrapKey` (initialise,
connect, decipher), `StripPadding`, `DecryptPayload`.  Every stage ends the run when it
fails; the result of the last one is the plaintext.  `ReadInput` fails when `readFile`
does not deliver the content of the input, whichever way. -/
def stagesBeforeWrite {κ : Type} (ssl : OpenSSL κ) (token : Token) (disk : Disk)
    (argv : List String) : Res Diagnostic Bytes :=
  match argv with
  | [_, encryptedInput, _] =>
    match readFile disk encryptedInput with
    | .terminated => .error .unreadableInput
    | .returned none => .error .unreadableInput
    | .returned (some fileData) =>
      match parseEnvelope fileData with
      | .error e => .error (.format e)
      | .fault f => .fault f
      | .ok env =>
        if ¬ token.ykpiv_init then
          .error .tokenInit
        else if ¬ token.ykpiv_connect then
          .error .tokenConnect
        else
          match token.ykpiv_decipher_data env.rsaEncAES with
          | none => .error .tokenDecipher
          | some aesData =>
            match (stripPadding aesData).result with
            | .error e => .error (.padding e)
            | .fault f => .fault f
            | .ok aesKey =>
              match ssl.decryptAES env.aesCipher aesKey env.aesIV with
              | none => .error .aesDecrypt
              | some plain => .ok plain
  | _ => .error .usage

/-- The run is one in which `readFile` is called on the input path (`argc` is 3) and
terminates the process. -/
def readTerminates (disk : Disk) (argv : List String) : Bool :=
  match argv with
  | [_, encryptedInput, _] => decide (readFile disk encryptedInput = .terminated)
  | _ => false

end Decrypt

namespace Encrypt

/-- The diagnostics of `yk_encrypt.cpp`, one for each group of `return 1`: the usage
line (line 20), the plaintext that is empty or unreadable (26), the failure of
`RAND_bytes` (35), of the AES encryption (42-63), of opening the key file (71), of
`PEM_read_PUBKEY` (77), of the `EVP_PKEY_encrypt` sequence (85-120) and of `writeFile`
(140). -/
inductive Diagnostic where
  | usage
  | emptyOrUnreadable
  | random
  | aesEncrypt
  | cannotOpenKey
  | pemRead
  | rsaEncrypt
  | writeFailed
  deriving DecidableEq, Repr

/-- The function `main` of `yk_encrypt.cpp` (lines 18-145), `argv` holding `argc`
strings.  The call of `readFile` on line 24 is not inside a `try`: when it throws, the
process is terminated there. -/
def main {κ : Type} (ssl : OpenSSL κ) (disk : Disk) (argv : List String) :
    Outcome Diagnostic :=
  if argv.length ≠ 4 then
    .fail disk .usage
  else
    match argv[1]?, argv[2]?, argv[3]? with
    | some plaintextInput, some rsaPublicKey, some encryptedOutput =>
      match readFile disk plaintextInput with
      | .terminated => .abort disk
      | .returned none => .fail disk .emptyOrUnreadable
      | .returned (some plaintext) =>
        if plaintext.isEmpty then
          .fail disk .emptyOrUnreadable
        else
          match ssl.randKey with
          | none => .fail disk .random
          | some aesKey =>
            match ssl.randIV with
            | none => .fail disk .random
            | some aesIV =>
              match ssl.encryptAES plaintext aesKey aesIV with
              | none => .fail disk .aesEncrypt
              | some ciphertext =>
                match disk.files rsaPublicKey with
                | none => .fail disk .cannotOpenKey
                | some pem =>
                  match ssl.readPubkey pem with
                  | none => .fail disk .pemRead
                  | some pkey =>
                    match ssl.pkeyEncrypt pkey aesKey with
                    | none => .fail disk .rsaEncrypt
                    | some encAesKey =>
                      let output := serialize encAesKey aesIV ciphertext
                      match writeFile disk encryptedOutput output with
                      | (false, after, ops) => ⟨some 1, some .writeFailed, after, ops, false⟩
                      | (true, after, ops) => ⟨some 0, none, after, ops, false⟩
    | _, _, _ => .faulted disk

end Encrypt

/-! ## A sample run, for the concrete instances -/

/-- The 13 bytes of the text "Hello, world!". -/
def helloWorld : Bytes := [72, 101, 108, 108, 111, 44, 32, 119, 111, 114, 108, 100, 33]

/-- A content key of 32 bytes. -/
def sampleKey : Bytes := List.replicate 32 7

/-- An iv of 16 bytes. -/
def sampleIV : Bytes := List.replicate 16 9

/-- An envelope of 20 bytes: the header announces a wrapped key of one byte, which is
the byte 7; the iv is 16 bytes 9; the ciphertext is the byte 5. -/
def sampleEnvelope : Bytes := [0, 1, 7] ++ List.replicate 16 9 ++ [5]

/-- A stand-in for OpenSSL: the symmetric cipher reverses the bytes and decrypts only
under `sampleKey`, the public-key operation reverses the key. -/
def sampleSSL : OpenSSL Unit where
  randKey := some sampleKey
  randIV := some sampleIV
  encryptAES := fun plaintext _ _ => some plaintext.reverse
  readPubkey := fun _ => some ()
  pkeyEncrypt := fun _ aesKey => some aesKey.reverse
  decryptAES := fun ciphertext key _ =>
    if key = sampleKey then some ciphertext.reverse else none

/-- A stand-in for the token: it undoes the public-key operation of `sampleSSL` and
returns the padded block with eight padding bytes `0xFF`. -/
def sampleToken : Token where
  ykpiv_init := true
  ykpiv_connect := true
  ykpiv_decipher_data := fun rsaEncAES =>
    some (paddedBlock (List.replicate 8 255) rsaEncAES.reverse)

/-- A disk with a plaintext, a key file, an envelope of 17 bytes and a directory
`dir`; every path but the directory can be opened for writing. -/
def sampleDisk : Disk where
  files := fun path =>
    if path = "plain.txt" then some helloWorld
    else if path = "key.pem" then some [1]
    else if path = "short.bin" then some (List.replicate 17 0)
    else none
  writable := fun path => decide (path ≠ "dir")
  tooLarge := fun path => decide (path = "dir")

/-! ## Arithmetic of the header -/

theorem headerLength_eq (b0 b1 : Byte) : headerLength b0 b1 = 256 * b0.val + b1.val := by
  have h0 := b0.isLt
  have h1 := b1.isLt
  have hor : b0.val <<< 8 ||| b1.val = b0.val <<< 8 + b1.val := by
    have hlt : b1.val < 2 ^ 8 := by omega
    rw [Nat.shiftLeft_eq, Nat.mul_comm]
    exact (Nat.mul_add_lt_is_or hlt b0.val).symm
  simp only [headerLength, toUInt16, toUnsigned, toInteger]
  rw [Nat.mod_eq_of_lt (by omega : b0.val < 65536)]
  rw [Nat.mod_eq_of_lt (a := b0.val <<< 8) (by rw [Nat.shiftLeft_eq]; omega), hor,
    Nat.shiftLeft_eq]
  omega

theorem requiredSize_eq (n : Nat) (h : n < 65536) : requiredSize n = 2 + n + 16 := by
  simp only [requiredSize, wrapInt, toSizeT]
  omega

theorem wrapInt_eq (x : Int) (hlo : -2147483648 ≤ x) (hhi : x < 2147483648) :
    wrapInt x = x := by
  simp only [wrapInt]
  omega

theorem and_255 (n : Nat) : n &&& 0xFF = n % 256 := by
  have h := Nat.and_pow_two_sub_one_eq_mod n 8
  simpa using h

theorem toByte_val (n : Nat) : (toByte n).val = n % 256 := by
  simp [toByte, Fin.ofNat]

/-! ## Spans -/

theorem subspan_eq_some (s : Bytes) (offset count : Nat) (h : offset + count ≤ s.length) :
    subspan s offset count = some ((s.drop offset).take count) := by
  have h2 : offset ≤ s.length ∧ count ≤ s.length - offset := by omega
  simp [subspan, h2]

theorem subspanFrom_eq_some (s : Bytes) (offset : Nat) (h : offset ≤ s.length) :
    subspanFrom s offset = some (s.drop offset) := by
  simp [subspanFrom, h]

/-! ## The length checks and the slices -/

theorem bigEndian16_eq_some (b : Bytes) (N : Nat) (h : bigEndian16 b = some N) :
    ∃ b0 b1 rest, b = b0 :: b1 :: rest ∧ N = 256 * b0.val + b1.val := by
  match b, h with
  | b0 :: b1 :: rest, h =>
    refine ⟨b0, b1, rest, rfl, ?_⟩
    simp only [bigEndian16, Option.some.injEq] at h
    exact h.symm

theorem bigEndian16_lt (b : Bytes) (N : Nat) (h : bigEndian16 b = some N) : N < 65536 := by
  obtain ⟨b0, b1, rest, _, hN⟩ := bigEndian16_eq_some b N h
  have h0 := b0.isLt
  have h1 := b1.isLt
  omega

theorem bigEndian16_of_length (b : Bytes) (h : 2 ≤ b.length) :
    ∃ N, bigEndian16 b = some N := by
  match b, h with
  | b0 :: b1 :: rest, _ => exact ⟨_, rfl⟩

theorem checkEnvelope_short (b : Bytes) (h : b.length < 18) :
    checkEnvelope b = .error .tooShort := by
  simp [checkEnvelope, h]

theorem checkEnvelope_long (b : Bytes) (N : Nat) (hN : bigEndian16 b = some N)
    (h : ¬ b.length < 18) :
    checkEnvelope b = if b.length < 2 + N + 16 then .error .truncated else .ok N := by
  have hlt := bigEndian16_lt b N hN
  obtain ⟨b0, b1, rest, rfl, rfl⟩ := bigEndian16_eq_some b N hN
  simp only [checkEnvelope, if_neg h, List.getElem?_cons_zero, List.getElem?_cons_succ,
    headerLength_eq, requiredSize_eq _ hlt]

theorem ivOffset_eq (n : Nat) (h : n < 65536) : ivOffset n = 2 + n := by
  simp only [ivOffset, wrapInt, toSizeT]
  omega

theorem sliceEnvelope_eq_some (b : Bytes) (N : Nat) (hN : N < 65536)
    (h : 2 + N + 16 ≤ b.length) :
    sliceEnvelope b N
      = some ⟨(b.drop 2).take N, (b.drop (2 + N)).take 16, b.drop (2 + N + 16)⟩ := by
  simp only [sliceEnvelope, ivOffset_eq N hN, requiredSize_eq N hN,
    subspan_eq_some b 2 N (by omega), subspan_eq_some b (2 + N) 16 (by omega),
    subspanFrom_eq_some b (2 + N + 16) h]

theorem parseEnvelope_short (b : Bytes) (h : b.length < 18) :
    parseEnvelope b = .error .tooShort := by
  simp [parseEnvelope, checkEnvelope_short b h]

theorem parseEnvelope_truncated (b : Bytes) (N : Nat) (hN : bigEndian16 b = some N)
    (h : ¬ b.length < 18) (ht : b.length < 2 + N + 16) :
    parseEnvelope b = .error .truncated := by
  simp [parseEnvelope, checkEnvelope_long b N hN h, ht]

theorem parseEnvelope_ok (b : Bytes) (N : Nat) (hN : bigEndian16 b = some N)
    (h : ¬ b.length < 18) (ht : ¬ b.length < 2 + N + 16) :
    parseEnvelope b
      = .ok ⟨(b.drop 2).take N, (b.drop (2 + N)).take 16, b.drop (2 + N + 16)⟩ := by
  simp [parseEnvelope, checkEnvelope_long b N hN h, ht,
    sliceEnvelope_eq_some b N (bigEndian16_lt b N hN) (by omega)]

/-- C2: the outcome of envelope parsing is decided by two length checks, in this order.
Parsing fails with the too-short error exactly when the input has fewer than 18 bytes
(so every input of 17 bytes is rejected as too short); otherwise the header reads as
`N = 256 * b[0] + b[1]`, parsing fails with the truncated error exactly when the input
has fewer than `2 + N + 16` bytes, and succeeds when it has not.  For every `N` up to
65535 neither addition of the check leaves the range of `int`, and the converted sum
is `2 + N + 16`. -/
theorem parseEnvelope_outcome (b : Bytes) :
    (parseEnvelope b = .error .tooShort ↔ b.length < 18) ∧
    (b.length = 17 → parseEnvelope b = .error .tooShort) ∧
    (¬ b.length < 18 →
      ∃ N, bigEndian16 b = some N ∧
        (parseEnvelope b = .error .truncated ↔ b.length < 2 + N + 16) ∧
        (¬ b.length < 2 + N + 16 → ∃ env, parseEnvelope b = .ok env)) ∧
    (∀ N : Nat, N ≤ 65535 →
      wrapInt (2 + (N : Int)) = 2 + (N : Int) ∧
      wrapInt (2 + (N : Int) + 16) = 2 + (N : Int) + 16 ∧
      requiredSize N = 2 + N + 16) := by
  refine ⟨⟨fun hp => ?_, parseEnvelope_short b⟩, fun h17 => parseEnvelope_short b (by omega),
    fun h18 => ?_, fun N hN => ?_⟩
  · by_contra h18
    obtain ⟨N, hN⟩ := bigEndian16_of_length b (by omega)
    by_cases ht : b.length < 2 + N + 16
    · rw [parseEnvelope_truncated b N hN h18 ht] at hp
      cases hp
    · rw [parseEnvelope_ok b N hN h18 ht] at hp
      cases hp
  · obtain ⟨N, hN⟩ := bigEndian16_of_length b (by omega)
    refine ⟨N, hN, ⟨fun hp => ?_, parseEnvelope_truncated b N hN h18⟩, fun ht => ?_⟩
    · by_contra ht
      rw [parseEnvelope_ok b N hN h18 ht] at hp
      cases hp
    · exact ⟨_, parseEnvelope_ok b N hN h18 ht⟩
  · exact ⟨wrapInt_eq _ (by omega) (by omega), wrapInt_eq _ (by omega) (by omega),
      requiredSize_eq N (by omega)⟩

/-- An envelope of exactly 17 bytes is rejected as too short. -/
theorem parseEnvelope_outcome_witness :
    parseEnvelope (List.replicate 17 (1 : Byte)) = .error .tooShort :=
  (parseEnvelope_outcome (List.replicate 17 1)).2.1 (by decide)

/-- C3: on an input `b` that passes both length checks, with `N = 256 * b[0] + b[1]`,
parsing yields the wrapped key `b[2 .. 2+N)` of exactly `N` bytes, the iv
`b[2+N .. 2+N+16)` of exactly 16 bytes and the ciphertext `b[2+N+16 .. end)`; the
slices lie inside `b`, and the two header bytes followed by the three slices are `b`. -/
theorem parseEnvelope_slices (b : Bytes) (N : Nat) (hN : bigEndian16 b = some N)
    (h18 : ¬ b.length < 18) (ht : ¬ b.length < 2 + N + 16) :
    ∃ env, parseEnvelope b = .ok env ∧
      env.rsaEncAES.length = N ∧ env.aesIV.length = 16 ∧
      2 + N + 16 + env.aesCipher.length = b.length ∧
      (∀ i, i < N → env.rsaEncAES[i]? = b[2 + i]? ∧ 2 + i < b.length) ∧
      (∀ i, i < 16 → env.aesIV[i]? = b[2 + N + i]? ∧ 2 + N + i < b.length) ∧
      (∀ i, env.aesCipher[i]? = b[2 + N + 16 + i]?) ∧
      b.take 2 ++ env.rsaEncAES ++ env.aesIV ++ env.aesCipher = b := by
  refine ⟨_, parseEnvelope_ok b N hN h18 ht, ?_, ?_, ?_, ?_, ?_, ?_, ?_⟩
  · simp only [List.length_take, List.length_drop]
    omega
  · simp only [List.length_take, List.length_drop]
    omega
  · simp only [List.length_drop]
    omega
  · intro i hi
    refine ⟨?_, by omega⟩
    simp only [List.getElem?_take, hi, if_true, List.getElem?_drop]
  · intro i hi
    refine ⟨?_, by omega⟩
    simp only [List.getElem?_take, hi, if_true, List.getElem?_drop]
  · intro i
    simp only [List.getElem?_drop]
  · have e1 : List.drop (2 + N) b = List.drop N (List.drop 2 b) := by
      rw [List.drop_drop, Nat.add_comm]
    have e2 : List.drop (2 + N + 16) b = List.drop 16 (List.drop (2 + N) b) := by
      rw [List.drop_drop, Nat.add_comm]
    simp only
    rw [e2, List.append_assoc, List.take_append_drop, List.append_assoc, e1,
      List.take_append_drop, List.take_append_drop]

/-- The sample envelope of 20 bytes passes both checks with `N = 1`. -/
theorem parseEnvelope_slices_witness :
    ∃ env, parseEnvelope sampleEnvelope = .ok env ∧
      env.rsaEncAES.length = 1 ∧ env.aesIV.length = 16 ∧
      2 + 1 + 16 + env.aesCipher.length = sampleEnvelope.length ∧
      (∀ i, i < 1 → env.rsaEncAES[i]? = sampleEnvelope[2 + i]? ∧
        2 + i < sampleEnvelope.length) ∧
      (∀ i, i < 16 → env.aesIV[i]? = sampleEnvelope[2 + 1 + i]? ∧
        2 + 1 + i < sampleEnvelope.length) ∧
      (∀ i, env.aesCipher[i]? = sampleEnvelope[2 + 1 + 16 + i]?) ∧
      sampleEnvelope.take 2 ++ env.rsaEncAES ++ env.aesIV ++ env.aesCipher
        = sampleEnvelope :=
  parseEnvelope_slices sampleEnvelope 1 (by decide) (by decide) (by decide)

/-! ## The serialized header -/

theorem serialize_eq_cons (encAesKey aesIV ciphertext : Bytes) :
    serialize encAesKey aesIV ciphertext
      = toByte ((encAesKey.length >>> 8) &&& 0xFF) :: toByte (encAesKey.length &&& 0xFF)
          :: (encAesKey ++ (aesIV ++ ciphertext)) := by
  simp only [serialize, List.cons_append, List.nil_append, List.append_assoc]

theorem serialize_length (encAesKey aesIV ciphertext : Bytes) :
    (serialize encAesKey aesIV ciphertext).length
      = 2 + encAesKey.length + aesIV.length + ciphertext.length := by
  rw [serialize_eq_cons, List.length_cons, List.length_cons, List.length_append,
    List.length_append]
  omega

theorem bigEndian16_serialize (encAesKey aesIV ciphertext : Bytes) :
    bigEndian16 (serialize encAesKey aesIV ciphertext) = some (encAesKey.length % 65536) := by
  simp only [serialize, bigEndian16, List.cons_append, List.nil_append, toByte_val, and_255,
    Nat.shiftRight_eq_div_pow, Option.some.injEq]
  omega

/-- C4, as the claim states it, fails for a wrapped key of 65536 bytes: the header of
the serialized envelope reads 0, not 65536. -/
theorem serialize_header_wraps :
    bigEndian16 (serialize (List.replicate 65536 0) (List.replicate 16 0) []) = some 0 ∧
    bigEndian16 (serialize (List.replicate 65536 0) (List.replicate 16 0) [])
      ≠ some (List.replicate 65536 (0 : Byte)).length := by
  have h : bigEndian16 (serialize (List.replicate 65536 0) (List.replicate 16 0) [])
      = some 0 := by
    rw [bigEndian16_serialize, List.length_replicate]
  refine ⟨h, fun hc => ?_⟩
  rw [h, List.length_replicate] at hc
  exact absurd hc (by decide)

/-- C4, amended: for an envelope produced by the serialization step from a wrapped key
of at most 65535 bytes, a 16-byte iv and any ciphertext, the first two bytes read as a
big-endian unsigned 16-bit integer are the exact byte length of the wrapped-key segment
that follows them, and the envelope has at least 18 bytes. -/
theorem serialize_header (encAesKey aesIV ciphertext : Bytes)
    (hlen : encAesKey.length ≤ 65535) (hiv : aesIV.length = 16) :
    bigEndian16 (serialize encAesKey aesIV ciphertext) = some encAesKey.length ∧
    ((serialize encAesKey aesIV ciphertext).drop 2).take encAesKey.length = encAesKey ∧
    18 ≤ (serialize encAesKey aesIV ciphertext).length := by
  refine ⟨?_, ?_, ?_⟩
  · rw [bigEndian16_serialize, Nat.mod_eq_of_lt (by omega)]
  · rw [serialize_eq_cons]
    exact List.take_left _ _
  · rw [serialize_length]
    omega

/-- A wrapped key of three bytes, a 16-byte iv and a one-byte ciphertext. -/
theorem serialize_header_witness :
    bigEndian16 (serialize [1, 2, 3] (List.replicate 16 9) [4]) = some 3 ∧
    ((serialize [1, 2, 3] (List.replicate 16 9) [4]).drop 2).take 3 = [1, 2, 3] ∧
    18 ≤ (serialize [1, 2, 3] (List.replicate 16 9) [4]).length :=
  serialize_header [1, 2, 3] (List.replicate 16 9) [4] (by decide) (by decide)

theorem parseEnvelope_serialize (encAesKey aesIV ciphertext : Bytes)
    (hlen : encAesKey.length ≤ 65535) (hiv : aesIV.length = 16) :
    parseEnvelope (serialize encAesKey aesIV ciphertext)
      = .ok ⟨encAesKey, aesIV, ciphertext⟩ := by
  have hN : bigEndian16 (serialize encAesKey aesIV ciphertext) = some encAesKey.length := by
    rw [bigEndian16_serialize, Nat.mod_eq_of_lt (by omega)]
  have hl := serialize_length encAesKey aesIV ciphertext
  rw [parseEnvelope_ok _ _ hN (by omega) (by omega), serialize_eq_cons]
  have e1 : 2 + encAesKey.length = encAesKey.length + 1 + 1 := by omega
  have e2 : 2 + encAesKey.length + 16 = (encAesKey.length + 16) + 1 + 1 := by omega
  have d0 : ∀ (x y : Byte) (l : Bytes), List.drop 2 (x :: y :: l) = l := fun _ _ _ => rfl
  have d1 : List.drop encAesKey.length (encAesKey ++ (aesIV ++ ciphertext))
      = aesIV ++ ciphertext := List.drop_left _ _
  have d2 : List.drop (encAesKey.length + 16) (encAesKey ++ (aesIV ++ ciphertext))
      = ciphertext := by
    rw [List.drop_append 16, ← hiv, List.drop_left]
  have t2 : List.take 16 (aesIV ++ ciphertext) = aesIV := by
    rw [← hiv, List.take_left]
  rw [d0, e2, e1]
  simp only [List.drop_succ_cons, List.take_left, d1, d2, t2]

/-! ## The separator scan -/

theorem subSizeT_eq (a b : Nat) (h : b ≤ a) : subSizeT a b = a - b := by
  simp [subSizeT, h]

theorem scanSeparator_spec (data : Bytes) :
    ∀ fuel i : Nat, i ≤ data.length → data.length - i < fuel →
      ∃ s, (scanSeparator data fuel i).2 = .ok s ∧ i ≤ s ∧ s ≤ data.length ∧
        (∀ j, i ≤ j → j < s → data[j]? ≠ some 0) ∧
        (s < data.length → data[s]? = some 0) ∧
        (∀ r ∈ (scanSeparator data fuel i).1, i ≤ r ∧ r < data.length) := by
  intro fuel
  induction fuel with
  | zero => intro i _ hf; omega
  | succ fuel ih =>
    intro i hi hf
    by_cases hlt : i < data.length
    · have hget : data[i]? = some data[i] := List.getElem?_eq_getElem hlt
      by_cases hz : data[i] = 0
      · refine ⟨i, ?_, le_refl i, hi, fun j h1 h2 => by omega, fun _ => by rw [hget, hz], ?_⟩
        · simp [scanSeparator, hlt, hz]
        · intro r hr
          simp [scanSeparator, hlt, hz] at hr
          omega
      · obtain ⟨s, hres, h1, h2, h3, h4, h5⟩ := ih (i + 1) (by omega) (by omega)
        refine ⟨s, ?_, by omega, h2, ?_, h4, ?_⟩
        · simp [scanSeparator, hlt, hz, hres]
        · intro j hj1 hj2
          by_cases hji : j = i
          · subst hji
            rw [hget]
            simpa using hz
          · exact h3 j (by omega) hj2
        · intro r hr
          simp only [scanSeparator, hlt, if_true, hget, ne_eq, hz, not_false_eq_true,
            List.mem_cons] at hr
          rcases hr with hr | hr
          · omega
          · have := h5 r hr
            omega
    · refine ⟨i, ?_, le_refl i, hi, fun j h1 h2 => by omega, fun h => by omega, ?_⟩
      · simp [scanSeparator, hlt]
      · intro r hr
        simp [scanSeparator, hlt] at hr

theorem take_two_eq (block : Bytes) (h : block.take 2 = [0, 2]) :
    ∃ rest, block = 0 :: 2 :: rest := by
  match block, h with
  | b0 :: b1 :: rest, h =>
    simp only [List.take_succ_cons, List.take_zero, List.cons.injEq, and_true] at h
    exact ⟨rest, by rw [h.1, h.2]⟩

/-! ## The header check -/

theorem headerCondition_good (rest : Bytes) :
    headerCondition (0 :: 2 :: rest) = ([0, 1], some false) := by
  simp [headerCondition]

theorem headerCondition_bad (block : Bytes) (h : block.take 2 ≠ [0, 2]) :
    ∃ reads, headerCondition block = (reads, some true) ∧
      ∀ r ∈ reads, r < 2 ∧ r < block.length := by
  match block, h with
  | [], _ => exact ⟨[], by simp [headerCondition], by simp⟩
  | [b0], _ => exact ⟨[], by simp [headerCondition], by simp⟩
  | b0 :: b1 :: rest, h =>
    by_cases h0 : b0 = 0
    · have h1 : b1 ≠ 2 := by
        intro h1
        exact h (by simp [h0, h1])
      exact ⟨[0, 1], by simp [headerCondition, h0, h1], by simp⟩
    · exact ⟨[0], by simp [headerCondition, h0], by simp⟩

/-! ## Padding removal on a block with a good header -/

theorem stripPaddingFuel_good (rest : Bytes) (fuel : Nat) (hf : rest.length < fuel) :
    ∃ s scanned, 2 ≤ s ∧ s ≤ (0 :: 2 :: rest : Bytes).length ∧
      (∀ j, 2 ≤ j → j < s → (0 :: 2 :: rest : Bytes)[j]? ≠ some 0) ∧
      (s < (0 :: 2 :: rest : Bytes).length → (0 :: 2 :: rest : Bytes)[s]? = some 0) ∧
      (∀ r ∈ scanned, 2 ≤ r ∧ r < (0 :: 2 :: rest : Bytes).length) ∧
      stripPaddingFuel fuel (0 :: 2 :: rest) = ⟨[0, 1] ++ scanned,
        if (0 :: 2 :: rest : Bytes).length ≤ s then .error .missingSeparator
        else if (0 :: 2 :: rest : Bytes).length - (s + 1) ≠ 32 then
          .error (.unexpectedKeyLength ((0 :: 2 :: rest : Bytes).length - (s + 1)))
        else .ok ((0 :: 2 :: rest : Bytes).drop (s + 1))⟩ := by
  generalize hb : (0 :: 2 :: rest : Bytes) = block
  have hlen : block.length = rest.length + 2 := by rw [← hb]; rfl
  obtain ⟨s, hres, h1, h2, h3, h4, h5⟩ :=
    scanSeparator_spec block fuel 2 (by omega) (by omega)
  refine ⟨s, (scanSeparator block fuel 2).1, h1, h2, h3, h4, h5, ?_⟩
  have hhead : headerCondition block = ([0, 1], some false) := by
    rw [← hb]; exact headerCondition_good rest
  have hscan : scanSeparator block fuel 2 = ((scanSeparator block fuel 2).1, .ok s) := by
    rw [← hres]
  simp only [stripPaddingFuel, hhead]
  rw [hscan]
  simp only [ge_iff_le]
  by_cases hs : block.length ≤ s
  · simp only [hs, if_true]
  · simp only [hs, if_false]
    rw [subSizeT_eq _ _ (by omega)]
    by_cases hk : block.length - (s + 1) = 32
    · have hsub := subspan_eq_some block (s + 1) 32 (by omega)
      have htake : List.take 32 (List.drop (s + 1) block) = List.drop (s + 1) block := by
        apply List.take_of_length_le
        rw [List.length_drop]
        omega
      simp only [hk, ne_eq, not_true_eq_false, if_false, hsub, htake]
    · simp only [ne_eq, hk, not_false_eq_true, if_true]

theorem stripPaddingFuel_header_ok (block : Bytes) (fuel : Nat) (h : block.take 2 = [0, 2])
    (hf : block.length < fuel + 2) :
    ∃ s scanned, 2 ≤ s ∧ s ≤ block.length ∧
      (∀ j, 2 ≤ j → j < s → block[j]? ≠ some 0) ∧
      (s < block.length → block[s]? = some 0) ∧
      (∀ r ∈ scanned, 2 ≤ r ∧ r < block.length) ∧
      stripPaddingFuel fuel block = ⟨[0, 1] ++ scanned,
        if block.length ≤ s then .error .missingSeparator
        else if block.length - (s + 1) ≠ 32 then
          .error (.unexpectedKeyLength (block.length - (s + 1)))
        else .ok (block.drop (s + 1))⟩ := by
  obtain ⟨rest, rfl⟩ := take_two_eq block h
  exact stripPaddingFuel_good rest fuel (by simp only [List.length_cons] at hf; omega)

theorem firstZeroFrom2_lt (block : Bytes) (s : Nat) (hs : FirstZeroFrom2 block s) :
    s < block.length := by
  by_contra hge
  have hnone : block[s]? = none := List.getElem?_eq_none (by omega)
  rw [hs.2.1] at hnone
  cases hnone

theorem stripPaddingFuel_first_zero (block : Bytes) (fuel s : Nat)
    (h : block.take 2 = [0, 2]) (hf : block.length < fuel + 2)
    (hs : FirstZeroFrom2 block s) :
    ∃ scanned, (∀ r ∈ scanned, 2 ≤ r ∧ r < block.length) ∧
      stripPaddingFuel fuel block = ⟨[0, 1] ++ scanned,
        if block.length - (s + 1) ≠ 32 then
          .error (.unexpectedKeyLength (block.length - (s + 1)))
        else .ok (block.drop (s + 1))⟩ := by
  obtain ⟨t, scanned, h1, h2, h3, h4, h5, h6⟩ := stripPaddingFuel_header_ok block fuel h hf
  have hlt := firstZeroFrom2_lt block s hs
  obtain ⟨hs1, hs2, hs3⟩ := hs
  have hts : t = s := by
    rcases Nat.lt_trichotomy t s with hlt2 | heq | hgt
    · exact absurd (h4 (by omega)) (hs3 t hlt2 h1)
    · exact heq
    · exact absurd hs2 (h3 s hs1 hgt)
  subst hts
  refine ⟨scanned, h5, ?_⟩
  rw [h6, if_neg (by omega)]

theorem stripPaddingFuel_no_zero (block : Bytes) (fuel : Nat)
    (h : block.take 2 = [0, 2]) (hf : block.length < fuel + 2)
    (hz : ∀ j, 2 ≤ j → block[j]? ≠ some 0) :
    ∃ scanned, (∀ r ∈ scanned, 2 ≤ r ∧ r < block.length) ∧
      stripPaddingFuel fuel block = ⟨[0, 1] ++ scanned, .error .missingSeparator⟩ := by
  obtain ⟨t, scanned, h1, h2, h3, h4, h5, h6⟩ := stripPaddingFuel_header_ok block fuel h hf
  have hge : block.length ≤ t := by
    by_contra hlt
    exact hz t h1 (h4 (by omega))
  refine ⟨scanned, h5, ?_⟩
  rw [h6, if_pos hge]

theorem stripPaddingFuel_bad_header (block : Bytes) (fuel : Nat) (h : block.take 2 ≠ [0, 2]) :
    ∃ reads, (∀ r ∈ reads, r < 2 ∧ r < block.length) ∧
      stripPaddingFuel fuel block = ⟨reads, .error .badHeader⟩ := by
  obtain ⟨reads, hc, hr⟩ := headerCondition_bad block h
  exact ⟨reads, hr, by simp only [stripPaddingFuel, hc]⟩

theorem scanSeparator_fuel (data : Bytes) :
    ∀ fuel fuel' i : Nat, i ≤ data.length → data.length - i < fuel →
      data.length - i < fuel' → scanSeparator data fuel i = scanSeparator data fuel' i := by
  intro fuel
  induction fuel with
  | zero => intro fuel' i _ hf; omega
  | succ fuel ih =>
    intro fuel' i hi hf hf'
    match fuel', hf' with
    | 0, hf' => omega
    | fuel' + 1, hf' =>
      by_cases hlt : i < data.length
      · have hget : data[i]? = some data[i] := List.getElem?_eq_getElem hlt
        by_cases hz : data[i] = 0
        · simp [scanSeparator, hlt, hz]
        · simp only [scanSeparator, hlt, if_true, hget, ne_eq, hz, not_false_eq_true]
          rw [ih fuel' (i + 1) (by omega) (by omega) (by omega)]
      · simp [scanSeparator, hlt]

theorem stripPaddingFuel_fuel (block : Bytes) (fuel fuel' : Nat)
    (hf : block.length ≤ fuel) (hf' : block.length ≤ fuel') :
    stripPaddingFuel fuel block = stripPaddingFuel fuel' block := by
  by_cases h2 : block.length < 2
  · simp [stripPaddingFuel, headerCondition, h2]
  · have hscan := scanSeparator_fuel block fuel fuel' 2 (by omega) (by omega) (by omega)
    simp only [stripPaddingFuel, hscan]

theorem stripPaddingFuel_enough (block : Bytes) (fuel : Nat) (hf : block.length ≤ fuel) :
    stripPaddingFuel fuel block = stripPadding block ∧
    (∀ f, (stripPadding block).result ≠ .fault f) ∧
    (∀ r ∈ (stripPadding block).reads, r < block.length) := by
  refine ⟨stripPaddingFuel_fuel block fuel block.length hf (le_refl _), ?_⟩
  by_cases h : block.take 2 = [0, 2]
  · obtain ⟨s, scanned, h1, h2, h3, h4, h5, h6⟩ :=
      stripPaddingFuel_header_ok block block.length h (by omega)
    have hlen : 2 ≤ block.length := by
      obtain ⟨rest, rfl⟩ := take_two_eq block h
      simp
    refine ⟨fun f hfault => ?_, fun r hr => ?_⟩
    · simp only [stripPadding, h6] at hfault
      split at hfault
      · cases hfault
      · split at hfault <;> cases hfault
    · simp only [stripPadding, h6, List.mem_append, List.mem_cons, List.mem_singleton,
        List.not_mem_nil, or_false] at hr
      rcases hr with (hr | hr) | hr
      · omega
      · omega
      · exact (h5 r hr).2
  · obtain ⟨reads, hr, he⟩ := stripPaddingFuel_bad_header block block.length h
    refine ⟨fun f hfault => ?_, fun r hmem => ?_⟩
    · simp only [stripPadding, he] at hfault
      cases hfault
    · simp only [stripPadding, he] at hmem
      exact (hr r hmem).2

/-! ## The padded block -/

theorem paddedBlock_take_two (PS M : Bytes) : (paddedBlock PS M).take 2 = [0, 2] := rfl

theorem paddedBlock_length (PS M : Bytes) :
    (paddedBlock PS M).length = PS.length + M.length + 3 := by
  simp only [paddedBlock, List.length_cons, List.length_append]
  omega

theorem paddedBlock_getElem? (PS M : Bytes) (j : Nat) :
    (paddedBlock PS M)[j + 2]? = (PS ++ 0 :: M)[j]? := by
  simp only [paddedBlock, List.getElem?_cons_succ]

theorem paddedBlock_firstZero (PS M : Bytes) (hPS : ∀ b ∈ PS, b ≠ 0) :
    FirstZeroFrom2 (paddedBlock PS M) (2 + PS.length) := by
  refine ⟨by omega, ?_, fun j hj h2 => ?_⟩
  · rw [Nat.add_comm, paddedBlock_getElem?, List.getElem?_append_right (le_refl _)]
    simp
  · obtain ⟨k, rfl⟩ : ∃ k, j = k + 2 := ⟨j - 2, by omega⟩
    have hk : k < PS.length := by omega
    rw [paddedBlock_getElem?, List.getElem?_append_left hk, List.getElem?_eq_getElem hk]
    intro hz
    exact hPS PS[k] (List.getElem_mem hk) (Option.some.inj hz)

theorem paddedBlock_drop (PS M : Bytes) :
    (paddedBlock PS M).drop (2 + PS.length + 1) = M := by
  have e : 2 + PS.length + 1 = (PS.length + 1) + 1 + 1 := by omega
  rw [e]
  simp only [paddedBlock, List.drop_succ_cons]
  rw [List.drop_append 1]
  rfl

theorem of_firstZero (block : Bytes) (s : Nat) (h : block.take 2 = [0, 2])
    (hs : FirstZeroFrom2 block s) :
    block = paddedBlock ((block.drop 2).take (s - 2)) (block.drop (s + 1)) ∧
    ∀ b ∈ (block.drop 2).take (s - 2), b ≠ 0 := by
  have hlt := firstZeroFrom2_lt block s hs
  obtain ⟨hs1, hs2, hs3⟩ := hs
  obtain ⟨rest, rfl⟩ := take_two_eq block h
  obtain ⟨k, rfl⟩ : ∃ k, s = k + 2 := ⟨s - 2, by omega⟩
  have hk : k < rest.length := by simpa using hlt
  have hzero : rest[k] = 0 := by
    have h1 : (0 :: 2 :: rest : Bytes)[k + 2]? = rest[k]? := by
      simp only [List.getElem?_cons_succ]
    rw [h1, List.getElem?_eq_getElem hk] at hs2
    exact Option.some.inj hs2
  refine ⟨?_, fun b hb hz => ?_⟩
  · have hsplit : rest = rest.take k ++ 0 :: rest.drop (k + 1) := by
      rw [← hzero, List.getElem_cons_drop, List.take_append_drop]
    simp only [paddedBlock, List.drop_succ_cons, List.drop_zero, Nat.add_sub_cancel]
    rw [← hsplit]
  · simp only [List.drop_succ_cons, List.drop_zero, Nat.add_sub_cancel] at hb
    obtain ⟨j, hj, hbj⟩ := List.mem_take_iff_getElem.mp hb
    have hjk : j < k := by omega
    have hjl : j < rest.length := by omega
    apply hs3 (j + 2) (by omega) (by omega)
    simp only [List.getElem?_cons_succ]
    rw [List.getElem?_eq_getElem hjl, hbj, hz]

theorem stripPadding_accepted (block key : Bytes) (h : (stripPadding block).result = .ok key) :
    block.take 2 = [0, 2] ∧ 35 ≤ block.length ∧ key = block.drop (block.length - 32) ∧
    FirstZeroFrom2 block (block.length - 33) := by
  by_cases h2 : block.take 2 = [0, 2]
  · obtain ⟨s, scanned, h1, _, h3, h4, _, h6⟩ :=
      stripPaddingFuel_header_ok block block.length h2 (by omega)
    simp only [stripPadding, h6] at h
    by_cases hs : block.length ≤ s
    · rw [if_pos hs] at h
      cases h
    · rw [if_neg hs] at h
      by_cases hk : block.length - (s + 1) = 32
      · rw [if_neg (by simpa using hk)] at h
        have hs33 : block.length - 33 = s := by omega
        have hs32 : block.length - 32 = s + 1 := by omega
        rw [hs33, hs32]
        exact ⟨h2, by omega, (Res.ok.inj h).symm, h1, h4 (by omega),
          fun j hj hj2 => h3 j hj2 hj⟩
      · rw [if_pos hk] at h
        cases h
  · obtain ⟨reads, _, he⟩ := stripPaddingFuel_bad_header block block.length h2
    simp only [stripPadding, he] at h
    cases h

theorem stripPadding_paddedBlock (PS M : Bytes) (hPS : ∀ b ∈ PS, b ≠ 0)
    (hM : M.length = 32) :
    (stripPadding (paddedBlock PS M)).result = .ok M := by
  have hlen := paddedBlock_length PS M
  obtain ⟨scanned, _, he⟩ := stripPaddingFuel_first_zero (paddedBlock PS M)
    (paddedBlock PS M).length (2 + PS.length) (paddedBlock_take_two PS M) (by omega)
    (paddedBlock_firstZero PS M hPS)
  rw [stripPadding, he, if_neg (by omega), paddedBlock_drop]

/-! ## Padding removal: the claims -/

/-- C5: a deciphered block whose first two bytes are not exactly `0x00, 0x02`, which
includes every block of fewer than two bytes, makes padding removal fail with the
bad-header error.  It fails before the separator scan: whatever fuel the scan is given,
none at all included, the result is the same and no byte at index 2 or beyond has been
read; no key is returned. -/
theorem stripPadding_bad_header (block : Bytes)
    (h : block.length < 2 ∨ block.take 2 ≠ [0, 2]) :
    (stripPadding block).result = .error .badHeader ∧
    (∀ fuel, (stripPaddingFuel fuel block).result = .error .badHeader) ∧
    (∀ r ∈ (stripPadding block).reads, r < 2 ∧ r < block.length) ∧
    (∀ key, (stripPadding block).result ≠ .ok key) := by
  have hbad : block.take 2 ≠ [0, 2] := by
    rcases h with h | h
    · intro ht
      have hl : (block.take 2).length = 2 := by rw [ht]; rfl
      rw [List.length_take] at hl
      omega
    · exact h
  have hfuel : ∀ fuel, (stripPaddingFuel fuel block).result = .error .badHeader := by
    intro fuel
    obtain ⟨reads, _, he⟩ := stripPaddingFuel_bad_header block fuel hbad
    rw [he]
  obtain ⟨reads, hr, he⟩ := stripPaddingFuel_bad_header block block.length hbad
  refine ⟨hfuel _, hfuel, fun r hmem => ?_, fun key hkey => ?_⟩
  · simp only [stripPadding, he] at hmem
    exact hr r hmem
  · rw [stripPadding, hfuel] at hkey
    cases hkey

/-- A block of one byte and a block that starts `0x00, 0x01` both have a bad header. -/
theorem stripPadding_bad_header_witness :
    ((stripPadding [0]).result = .error .badHeader ∧
      (∀ fuel, (stripPaddingFuel fuel [0]).result = .error .badHeader) ∧
      (∀ r ∈ (stripPadding [0]).reads, r < 2 ∧ r < ([0] : Bytes).length) ∧
      (∀ key, (stripPadding [0]).result ≠ .ok key)) ∧
    (stripPadding (0 :: 1 :: 0 :: List.replicate 32 7)).result = .error .badHeader :=
  ⟨stripPadding_bad_header [0] (Or.inl (by decide)),
    (stripPadding_bad_header (0 :: 1 :: 0 :: List.replicate 32 7) (Or.inr (by decide))).1⟩

/-- C6: a deciphered block that starts `0x00, 0x02` and has no zero byte at any index
from 2 to its end makes padding removal fail with the missing-separator error.  For
every block the scan from index 2 ends, within as many evaluations of the loop
condition as the block has bytes (one, for a block without bytes) and with the same
result for any larger number, and every index read is below the block length. -/
theorem stripPadding_missing_separator (block : Bytes) :
    (block.take 2 = [0, 2] → (∀ j, 2 ≤ j → block[j]? ≠ some 0) →
      (stripPadding block).result = .error .missingSeparator) ∧
    (∀ fuel, block.length ≤ fuel → stripPaddingFuel fuel block = stripPadding block) ∧
    (∀ f, (stripPadding block).result ≠ .fault f) ∧
    (∀ r ∈ (stripPadding block).reads, r < block.length) ∧
    (∀ fuel, 0 < fuel → block.length ≤ fuel →
      ∃ s, (scanSeparator block fuel 2).2 = .ok s ∧ 2 ≤ s ∧ s ≤ max 2 block.length ∧
        ∀ r ∈ (scanSeparator block fuel 2).1, 2 ≤ r ∧ r < block.length) := by
  refine ⟨fun h hz => ?_, fun fuel hf => (stripPaddingFuel_enough block fuel hf).1,
    (stripPaddingFuel_enough block block.length (le_refl _)).2.1,
    (stripPaddingFuel_enough block block.length (le_refl _)).2.2, fun fuel h0 hf => ?_⟩
  · obtain ⟨scanned, _, he⟩ := stripPaddingFuel_no_zero block block.length h (by omega) hz
    rw [stripPadding, he]
  · by_cases h2 : 2 ≤ block.length
    · obtain ⟨s, hres, hs2, hs, _, _, hr⟩ := scanSeparator_spec block fuel 2 h2 (by omega)
      exact ⟨s, hres, hs2, by omega, hr⟩
    · obtain ⟨n, rfl⟩ : ∃ n, fuel = n + 1 := ⟨fuel - 1, by omega⟩
      have hlt : ¬ 2 < block.length := by omega
      refine ⟨2, by simp [scanSeparator, hlt], le_refl 2, by omega, fun r hr => ?_⟩
      simp [scanSeparator, hlt] at hr

/-- The block `0x00 0x02 0x03 0x04 0x05` has no separator. -/
theorem stripPadding_missing_separator_witness :
    (stripPadding [0, 2, 3, 4, 5]).result = .error .missingSeparator :=
  (stripPadding_missing_separator [0, 2, 3, 4, 5]).1 (by decide) (by
    intro j hj
    match j, hj with
    | 2, _ => decide
    | 3, _ => decide
    | 4, _ => decide
    | j + 5, _ => simp)

/-- C7: on a deciphered block that starts `0x00, 0x02` and whose first zero byte at an
index from 2 on is at index `s`, when the number of bytes after the separator,
`blockLength - (s + 1)`, is not 32, padding removal fails with the
unexpected-key-length error and the length it reports is exactly that number.  The
subtraction of `std::size_t` does not wrap (`s + 1` is at most the block length), and
the number lies between 0 and `blockLength - 3`. -/
theorem stripPadding_wrong_key_length (block : Bytes) (s : Nat)
    (h : block.take 2 = [0, 2]) (hs : FirstZeroFrom2 block s)
    (hne : block.length - (s + 1) ≠ 32) :
    (stripPadding block).result
      = .error (.unexpectedKeyLength (block.length - (s + 1))) ∧
    s + 1 ≤ block.length ∧
    subSizeT block.length (s + 1) + (s + 1) = block.length ∧
    (block.drop (s + 1)).length = block.length - (s + 1) ∧
    block.length - (s + 1) ≤ block.length - 3 := by
  have hlt := firstZeroFrom2_lt block s hs
  have h2 := hs.1
  obtain ⟨scanned, _, he⟩ := stripPaddingFuel_first_zero block block.length s h (by omega) hs
  refine ⟨?_, by omega, ?_, List.length_drop _ _, by omega⟩
  · rw [stripPadding, he, if_pos hne]
  · rw [subSizeT_eq _ _ (by omega)]
    omega

/-- The block `0x00 0x02 0x09 0x00 0x07`: the separator is at index 3 and one byte
follows it. -/
theorem stripPadding_wrong_key_length_witness :
    (stripPadding [0, 2, 9, 0, 7]).result = .error (.unexpectedKeyLength 1) :=
  (stripPadding_wrong_key_length [0, 2, 9, 0, 7] 3 (by decide) (by decide) (by decide)).1

/-- C8: for a padding string `PS` without zero bytes and a key `M` of 32 bytes (zero
bytes allowed in `M`), padding removal on `0x00 || 0x02 || PS || 0x00 || M` succeeds and
returns exactly `M`, the last 32 bytes of the block.  Conversely, whenever padding
removal succeeds on a block, the key returned is the last 32 bytes of the block and the
byte just before them is the first zero byte at an index from 2 on. -/
theorem stripPadding_recovers_key (PS M : Bytes) (hPS : ∀ b ∈ PS, b ≠ 0)
    (hM : M.length = 32) :
    (stripPadding (paddedBlock PS M)).result = .ok M ∧
    (paddedBlock PS M).drop ((paddedBlock PS M).length - 32) = M ∧
    (∀ block key, (stripPadding block).result = .ok key →
      key = block.drop (block.length - 32) ∧ key.length = 32 ∧ 33 ≤ block.length ∧
      FirstZeroFrom2 block (block.length - 33)) := by
  have hlen := paddedBlock_length PS M
  have hdrop := paddedBlock_drop PS M
  refine ⟨?_, ?_, fun block key hkey => ?_⟩
  · exact stripPadding_paddedBlock PS M hPS hM
  · have e : (paddedBlock PS M).length - 32 = 2 + PS.length + 1 := by omega
    rw [e, hdrop]
  · obtain ⟨_, h35, hk, hz⟩ := stripPadding_accepted block key hkey
    refine ⟨hk, ?_, by omega, hz⟩
    rw [hk, List.length_drop]
    omega

/-- A padding string of three non-zero bytes and a key of 32 zero bytes. -/
theorem stripPadding_recovers_key_witness :
    (stripPadding (paddedBlock [1, 2, 3] (List.replicate 32 0))).result
      = .ok (List.replicate 32 0) :=
  (stripPadding_recovers_key [1, 2, 3] (List.replicate 32 0) (by simp)
    (List.length_replicate 32 0)).1

/-- C9, as the claim states it, fails: the block `0x00 0x02 0x00` followed by 32 bytes
(an empty padding string) is accepted; its separator is at index 2 and it has 35
bytes. -/
theorem stripPadding_accepts_empty_padding :
    (stripPadding (0 :: 2 :: 0 :: List.replicate 32 7)).result = .ok (List.replicate 32 7) ∧
    (0 :: 2 :: 0 :: List.replicate 32 7 : Bytes) = paddedBlock [] (List.replicate 32 7) ∧
    FirstZeroFrom2 (0 :: 2 :: 0 :: List.replicate 32 7) 2 ∧
    (0 :: 2 :: 0 :: List.replicate 32 7 : Bytes).length = 35 :=
  ⟨by decide, by decide, by decide, by decide⟩

/-- C9, amended: a deciphered block on which padding removal succeeds has the form
`0x00 || 0x02 || PS || 0x00 || M` with `M` the returned key of 32 bytes and `PS` a
padding string without zero bytes, which may be empty (the separator index is at least
2 and the block has at least 35 bytes); a block `0x00 0x02 0x00` followed by 32 bytes
(empty `PS`) is accepted. -/
theorem stripPadding_accepted_form (block key : Bytes) :
    ((stripPadding block).result = .ok key →
      ∃ PS, block = paddedBlock PS key ∧ key.length = 32 ∧ (∀ b ∈ PS, b ≠ 0) ∧
        FirstZeroFrom2 block (2 + PS.length) ∧ 35 ≤ block.length) ∧
    (key.length = 32 → (stripPadding (paddedBlock [] key)).result = .ok key) := by
  refine ⟨fun hkey => ?_, fun hlen => ?_⟩
  · obtain ⟨h2, h35, hk, hz⟩ := stripPadding_accepted block key hkey
    obtain ⟨hform, hps⟩ := of_firstZero block (block.length - 33) h2 hz
    have e : block.length - 33 + 1 = block.length - 32 := by omega
    rw [e, ← hk] at hform
    refine ⟨_, hform, ?_, hps, ?_, h35⟩
    · rw [hk, List.length_drop]
      omega
    · have hl : 2 + (List.take (block.length - 33 - 2) (List.drop 2 block)).length
          = block.length - 33 := by
        rw [List.length_take, List.length_drop]
        omega
      rw [hl]
      exact hz
  · exact stripPadding_paddedBlock [] key (by simp) hlen

/-- A block with a padding string of one byte, and the block with an empty one. -/
theorem stripPadding_accepted_form_witness :
    (∃ PS, paddedBlock [5] (List.replicate 32 7) = paddedBlock PS (List.replicate 32 7) ∧
        (List.replicate 32 (7 : Byte)).length = 32 ∧ (∀ b ∈ PS, b ≠ 0) ∧
        FirstZeroFrom2 (paddedBlock [5] (List.replicate 32 7)) (2 + PS.length) ∧
        35 ≤ (paddedBlock [5] (List.replicate 32 7)).length) ∧
    (stripPadding (paddedBlock [] (List.replicate 32 7))).result
      = .ok (List.replicate 32 7) :=
  ⟨(stripPadding_accepted_form (paddedBlock [5] (List.replicate 32 7))
      (List.replicate 32 7)).1 (by decide),
    (stripPadding_accepted_form (paddedBlock [5] (List.replicate 32 7))
      (List.replicate 32 7)).2 (by decide)⟩

/-! ## The decrypt driver -/

theorem checkEnvelope_cases (b : Bytes) :
    checkEnvelope b = .error .tooShort ∨ checkEnvelope b = .error .truncated ∨
    ∃ N env, checkEnvelope b = .ok N ∧ sliceEnvelope b N = some env := by
  by_cases h18 : b.length < 18
  · exact Or.inl (checkEnvelope_short b h18)
  · obtain ⟨N, hN⟩ := bigEndian16_of_length b (by omega)
    have hc := checkEnvelope_long b N hN h18
    by_cases ht : b.length < 2 + N + 16
    · rw [if_pos ht] at hc
      exact Or.inr (Or.inl hc)
    · rw [if_neg ht] at hc
      exact Or.inr (Or.inr ⟨N, _, hc,
        sliceEnvelope_eq_some b N (bigEndian16_lt b N hN) (by omega)⟩)

theorem Decrypt.main_eq {κ : Type} (ssl : OpenSSL κ) (token : Token) (disk : Disk)
    (argv : List String) :
    Decrypt.main ssl token disk argv =
      if Decrypt.readTerminates disk argv = true then
        .abort disk
      else
        match Decrypt.stagesBeforeWrite ssl token disk argv, argv[2]? with
        | .error d, _ => .fail disk d
        | .fault _, _ => .faulted disk
        | .ok _, none => .faulted disk
        | .ok plain, some decryptedOutput =>
          if disk.writable decryptedOutput then
            ⟨some 0, none, disk.store decryptedOutput plain,
              [.openOutput decryptedOutput, .write decryptedOutput plain], false⟩
          else
            ⟨some 1, some .cannotOpenOutput, disk, [.openOutput decryptedOutput], false⟩ := by
  rcases argv with _ | ⟨a0, _ | ⟨a1, _ | ⟨a2, _ | ⟨a3, rest⟩⟩⟩⟩
  · simp [Decrypt.main, Decrypt.stagesBeforeWrite, Decrypt.readTerminates]
  · simp [Decrypt.main, Decrypt.stagesBeforeWrite, Decrypt.readTerminates]
  · simp [Decrypt.main, Decrypt.stagesBeforeWrite, Decrypt.readTerminates]
  · simp only [Decrypt.main, Decrypt.stagesBeforeWrite, Decrypt.readTerminates,
      List.length_cons, List.length_nil, ne_eq, not_true_eq_false, if_false,
      List.getElem?_cons_succ, List.getElem?_cons_zero, parseEnvelope, decide_eq_true_eq]
    cases hread : readFile disk a1 with
    | terminated => simp
    | returned result =>
      cases result with
      | none => simp
      | some fileData =>
        simp only [reduceCtorEq, if_false]
        rcases checkEnvelope_cases fileData with hc | hc | ⟨N, env, hc, hs⟩
        · simp only [hc]
        · simp only [hc]
        · simp only [hc, hs]
          by_cases hi : token.ykpiv_init = true
          · by_cases hco : token.ykpiv_connect = true
            · simp only [hi, hco, not_true_eq_false, if_false]
              cases token.ykpiv_decipher_data env.rsaEncAES with
              | none => rfl
              | some aesData =>
                simp only
                cases (stripPadding aesData).result with
                | error e => rfl
                | fault f => rfl
                | ok aesKey =>
                  simp only
                  cases ssl.decryptAES env.aesCipher aesKey env.aesIV with
                  | none => rfl
                  | some plain => rfl
            · simp [hi, hco]
          · simp [hi]
  · simp [Decrypt.main, Decrypt.stagesBeforeWrite, Decrypt.readTerminates]

theorem Decrypt.stagesBeforeWrite_ok {κ : Type} (ssl : OpenSSL κ) (token : Token)
    (disk : Disk) (argv : List String) (plain : Bytes)
    (h : Decrypt.stagesBeforeWrite ssl token disk argv = .ok plain) :
    (∃ decryptedOutput, argv[2]? = some decryptedOutput) ∧
    Decrypt.readTerminates disk argv = false := by
  unfold Decrypt.stagesBeforeWrite at h
  split at h
  · refine ⟨⟨_, rfl⟩, ?_⟩
    split at h
    · cases h
    · cases h
    · next fileData hread => simp [Decrypt.readTerminates, hread]
  · cases h

/-- C1: the end-to-end round trip.  For a non-empty plaintext `P`, a content key `k` of
32 bytes and an iv of 16 bytes drawn by the encrypt tool, a symmetric cipher with
`decryptAES (encryptAES P k iv) k iv = P`, a wrapped key `W` whose length fits in 16
bits, and a token that deciphers `W` to the block `0x00 || 0x02 || PS || 0x00 || k`
with `PS` free of zero bytes: the encrypt tool exits with 0 and leaves the envelope
`serialize W iv C` at its output path; the envelope parses to `(W, iv, C)`, padding
removal on the deciphered block gives `k`, and the decrypt tool run on that envelope
exits with 0 and leaves exactly `P` at its output path. -/
theorem roundtrip {κ : Type} (ssl : OpenSSL κ) (token : Token) (disk : Disk)
    (P k iv C W PS pem : Bytes) (pkey : κ)
    (encryptProg plaintextInput rsaPublicKey encrypted decryptProg decryptedOutput : String)
    (hP : P ≠ []) (hk : k.length = 32) (hiv : iv.length = 16)
    (hinput : readFile disk plaintextInput = .returned (some P))
    (hrandKey : ssl.randKey = some k) (hrandIV : ssl.randIV = some iv)
    (hencrypt : ssl.encryptAES P k iv = some C)
    (hdecrypt : ssl.decryptAES C k iv = some P)
    (hpem : disk.files rsaPublicKey = some pem) (hpkey : ssl.readPubkey pem = some pkey)
    (hwrap : ssl.pkeyEncrypt pkey k = some W) (hW : W.length ≤ 65535)
    (hinit : token.ykpiv_init = true) (hconnect : token.ykpiv_connect = true)
    (hunwrap : token.ykpiv_decipher_data W = some (paddedBlock PS k))
    (hPS : ∀ b ∈ PS, b ≠ 0)
    (hw1 : disk.writable encrypted = true) (hw2 : disk.writable decryptedOutput = true) :
    (Encrypt.main ssl disk [encryptProg, plaintextInput, rsaPublicKey, encrypted]).exit
      = some 0 ∧
    (Encrypt.main ssl disk [encryptProg, plaintextInput, rsaPublicKey, encrypted]).disk.files
      encrypted = some (serialize W iv C) ∧
    parseEnvelope (serialize W iv C) = .ok ⟨W, iv, C⟩ ∧
    (stripPadding (paddedBlock PS k)).result = .ok k ∧
    Decrypt.stagesBeforeWrite ssl token
      (Encrypt.main ssl disk [encryptProg, plaintextInput, rsaPublicKey, encrypted]).disk
      [decryptProg, encrypted, decryptedOutput] = .ok P ∧
    (Decrypt.main ssl token
      (Encrypt.main ssl disk [encryptProg, plaintextInput, rsaPublicKey, encrypted]).disk
      [decryptProg, encrypted, decryptedOutput]).exit = some 0 ∧
    (Decrypt.main ssl token
      (Encrypt.main ssl disk [encryptProg, plaintextInput, rsaPublicKey, encrypted]).disk
      [decryptProg, encrypted, decryptedOutput]).disk.files decryptedOutput = some P := by
  have hparse := parseEnvelope_serialize W iv C hW hiv
  have hstrip := stripPadding_paddedBlock PS k hPS hk
  have hempty : P.isEmpty = false := by
    cases P with
    | nil => exact absurd rfl hP
    | cons x xs => rfl
  have henc : Encrypt.main ssl disk [encryptProg, plaintextInput, rsaPublicKey, encrypted]
      = ⟨some 0, none, disk.store encrypted (serialize W iv C),
          [.openOutput encrypted, .write encrypted (serialize W iv C)], false⟩ := by
    simp [Encrypt.main, hinput, hempty, hrandKey, hrandIV, hencrypt, hpem, hpkey, hwrap,
      writeFile, hw1]
  have hstages : Decrypt.stagesBeforeWrite ssl token (disk.store encrypted (serialize W iv C))
      [decryptProg, encrypted, decryptedOutput] = .ok P := by
    simp [Decrypt.stagesBeforeWrite, readFile, Disk.store, hparse, hinit, hconnect, hunwrap,
      hstrip, hdecrypt]
  have hdec : Decrypt.main ssl token (disk.store encrypted (serialize W iv C))
      [decryptProg, encrypted, decryptedOutput]
      = ⟨some 0, none, (disk.store encrypted (serialize W iv C)).store decryptedOutput P,
          [.openOutput decryptedOutput, .write decryptedOutput P], false⟩ := by
    have hw : (disk.store encrypted (serialize W iv C)).writable decryptedOutput = true := hw2
    have hrt := (Decrypt.stagesBeforeWrite_ok ssl token _ _ P hstages).2
    rw [Decrypt.main_eq, hrt, hstages]
    simp [hw]
  rw [henc]
  refine ⟨rfl, ?_, hparse, hstrip, hstages, ?_, ?_⟩
  · simp [Disk.store]
  · rw [hdec]
  · rw [hdec]
    simp [Disk.store]

/-- The 13 bytes of "Hello, world!" go through the encrypt tool and the decrypt tool
with the sample collaborators and come back unchanged. -/
theorem roundtrip_witness :
    (Encrypt.main sampleSSL sampleDisk ["yk_encrypt", "plain.txt", "key.pem", "enc.bin"]).exit
      = some 0 ∧
    (Encrypt.main sampleSSL sampleDisk
      ["yk_encrypt", "plain.txt", "key.pem", "enc.bin"]).disk.files "enc.bin"
      = some (serialize sampleKey.reverse sampleIV helloWorld.reverse) ∧
    parseEnvelope (serialize sampleKey.reverse sampleIV helloWorld.reverse)
      = .ok ⟨sampleKey.reverse, sampleIV, helloWorld.reverse⟩ ∧
    (stripPadding (paddedBlock (List.replicate 8 255) sampleKey)).result = .ok sampleKey ∧
    Decrypt.stagesBeforeWrite sampleSSL sampleToken
      (Encrypt.main sampleSSL sampleDisk ["yk_encrypt", "plain.txt", "key.pem", "enc.bin"]).disk
      ["yk_decrypt", "enc.bin", "out.txt"] = .ok helloWorld ∧
    (Decrypt.main sampleSSL sampleToken
      (Encrypt.main sampleSSL sampleDisk ["yk_encrypt", "plain.txt", "key.pem", "enc.bin"]).disk
      ["yk_decrypt", "enc.bin", "out.txt"]).exit = some 0 ∧
    (Decrypt.main sampleSSL sampleToken
      (Encrypt.main sampleSSL sampleDisk ["yk_encrypt", "plain.txt", "key.pem", "enc.bin"]).disk
      ["yk_decrypt", "enc.bin", "out.txt"]).disk.files "out.txt" = some helloWorld :=
  roundtrip sampleSSL sampleToken sampleDisk helloWorld sampleKey sampleIV helloWorld.reverse
    sampleKey.reverse (List.replicate 8 255) [1] () "yk_encrypt" "plain.txt" "key.pem"
    "enc.bin" "yk_decrypt" "out.txt" (by decide) (by decide) (by decide) (by decide) rfl rfl
    rfl (by decide) (by decide) rfl rfl (by decide) rfl rfl (by decide) (by simp) rfl rfl

/-! ## Serialize and parse -/

theorem checkEnvelope_serialize (encAesKey aesIV ciphertext : Bytes)
    (hiv : aesIV.length = 16) :
    checkEnvelope (serialize encAesKey aesIV ciphertext) = .ok (encAesKey.length % 65536) := by
  have hN := bigEndian16_serialize encAesKey aesIV ciphertext
  have hl := serialize_length encAesKey aesIV ciphertext
  have hmod := Nat.mod_le encAesKey.length 65536
  rw [checkEnvelope_long _ _ hN (by omega), if_neg (by omega)]

theorem parseEnvelope_serialize_wrapped (encAesKey aesIV ciphertext : Bytes)
    (hiv : aesIV.length = 16) :
    ∃ env, parseEnvelope (serialize encAesKey aesIV ciphertext) = .ok env ∧
      env.rsaEncAES.length = encAesKey.length % 65536 := by
  have hN := bigEndian16_serialize encAesKey aesIV ciphertext
  have hl := serialize_length encAesKey aesIV ciphertext
  have hmod := Nat.mod_le encAesKey.length 65536
  refine ⟨_, parseEnvelope_ok _ _ hN (by omega) (by omega), ?_⟩
  simp only [List.length_take, List.length_drop]
  omega

/-- C11: the serialize/parse round trip and its limit.  The serialization step builds
the two header bytes `(len >> 8) & 0xFF` and `len & 0xFF` followed by `W`, the iv and
`C`.  For a wrapped key `W` of at most 65535 bytes, a 16-byte iv and any ciphertext `C`
(the empty one included), the envelope passes both length checks and parsing returns
exactly `(W, iv, C)`.  For a wrapped key of 65536 bytes or more the header stores only
`W.length mod 65536`, which is not `W.length`; parsing still succeeds, with a wrapped
key of that shorter length, and so does not return `(W, iv, C)`. -/
theorem serialize_parse_roundtrip (W iv C : Bytes) (hiv : iv.length = 16) :
    serialize W iv C
      = toByte ((W.length >>> 8) &&& 0xFF) :: toByte (W.length &&& 0xFF) :: (W ++ (iv ++ C)) ∧
    (W.length ≤ 65535 →
      checkEnvelope (serialize W iv C) = .ok W.length ∧
      parseEnvelope (serialize W iv C) = .ok ⟨W, iv, C⟩) ∧
    (65536 ≤ W.length →
      bigEndian16 (serialize W iv C) = some (W.length % 65536) ∧
      W.length % 65536 ≠ W.length ∧
      (∃ env, parseEnvelope (serialize W iv C) = .ok env ∧
        env.rsaEncAES.length = W.length % 65536) ∧
      parseEnvelope (serialize W iv C) ≠ .ok ⟨W, iv, C⟩) := by
  refine ⟨serialize_eq_cons W iv C, fun hle => ?_, fun hge => ?_⟩
  · refine ⟨?_, parseEnvelope_serialize W iv C hle hiv⟩
    rw [checkEnvelope_serialize W iv C hiv, Nat.mod_eq_of_lt (by omega)]
  · have hlt : W.length % 65536 < 65536 := Nat.mod_lt _ (by omega)
    have hne : W.length % 65536 ≠ W.length := by omega
    obtain ⟨env, henv, hlen⟩ := parseEnvelope_serialize_wrapped W iv C hiv
    refine ⟨bigEndian16_serialize W iv C, hne, ⟨env, henv, hlen⟩, fun hp => ?_⟩
    rw [henv] at hp
    have he : env = ⟨W, iv, C⟩ := Res.ok.inj hp
    rw [he] at hlen
    exact hne hlen.symm

/-- A wrapped key of three bytes with an empty ciphertext comes back unchanged; a
wrapped key of 65536 bytes is stored with the header 0 and does not come back. -/
theorem serialize_parse_roundtrip_witness :
    (checkEnvelope (serialize [1, 2, 3] sampleIV []) = .ok 3 ∧
      parseEnvelope (serialize [1, 2, 3] sampleIV []) = .ok ⟨[1, 2, 3], sampleIV, []⟩) ∧
    (bigEndian16 (serialize (List.replicate 65536 0) sampleIV [])
        = some ((List.replicate 65536 (0 : Byte)).length % 65536) ∧
      (List.replicate 65536 (0 : Byte)).length % 65536
        ≠ (List.replicate 65536 (0 : Byte)).length ∧
      (∃ env, parseEnvelope (serialize (List.replicate 65536 0) sampleIV []) = .ok env ∧
        env.rsaEncAES.length = (List.replicate 65536 (0 : Byte)).length % 65536) ∧
      parseEnvelope (serialize (List.replicate 65536 0) sampleIV [])
        ≠ .ok ⟨List.replicate 65536 0, sampleIV, []⟩) :=
  ⟨(serialize_parse_roundtrip [1, 2, 3] sampleIV [] (by decide)).2.1 (by decide),
    (serialize_parse_roundtrip (List.replicate 65536 0) sampleIV [] (by decide)).2.2
      (Nat.le_of_eq (List.length_replicate 65536 (0 : Byte)).symm)⟩

end Yk
